import Mathlib

/-!
Verification of the `LEARN_GO_API` HTTP CRUD service (`src/main.go`).

The Go program is shallowly embedded as pure Lean functions:

* `Json` models the JSON values handled by `encoding/json`; `parseValue`
  (fuel-based, structurally recursive) models `json.Decoder.Decode` reading
  exactly one JSON value from the request body and leaving any trailing
  bytes unread.
* `unmarshalName` / `unmarshalPut` model decoding into the Go structs
  `Name` (fields `id`, `name`) and the anonymous `struct{ Name string }`:
  unknown fields are skipped, field-name matching is case-insensitive,
  `null` leaves a field unchanged, and a type mismatch is a decode error.
* The Mongo collection is modelled as an in-memory list of documents
  (`DB.docs`) together with the identifier the store will assign to the
  next inserted document (`DB.fresh`).  Driver-level failures (the 500
  responses) and the operation deadlines are not modelled; no claim
  concerns them.
* `app` models the pipeline `corsMiddleware(http.DefaultServeMux)` for a
  request whose path is already in canonical (clean) form, with the three
  registered patterns `/health`, `/names` and `/names/`.  `ServeMux`'s
  clean-path canonicalization — a non-CONNECT request whose path differs
  from its `path.Clean` form is answered 301 to the cleaned path before
  any handler — is modelled by `cleanPath` and the full pipeline
  `appFull`; `appFull` agrees with `app` on clean paths
  (`appFull_clean`).  Claims other than C9 are stated on already-clean
  paths against `app`.
-/

namespace LearnGoApi

/-! ### JSON values -/

inductive Json where
  | null : Json
  | bool : Bool → Json
  | num : Int → Json
  | str : String → Json
  | arr : List Json → Json
  | obj : List (String × Json) → Json

/-! ### Characters and small string utilities (on `List Char`) -/

/-- The whitespace set of Go's `strings.TrimSpace` (ASCII part; the exotic
Unicode spaces are not modelled). -/
def isGoSpace (c : Char) : Bool :=
  c = ' ' || c = '\t' || c = '\n' || Char.ofNat 11 = c || Char.ofNat 12 = c || c = '\r'

def trimSpaceL (cs : List Char) : List Char :=
  ((cs.dropWhile isGoSpace).reverse.dropWhile isGoSpace).reverse

/-- Models `strings.TrimSpace`. -/
def trimSpace (s : String) : String :=
  ⟨trimSpaceL s.data⟩

def isSlash (c : Char) : Bool := c = '/'

/-- `dropPrefixL cs pre` is `some rest` iff `cs = pre ++ rest`; it combines
`strings.HasPrefix` and `strings.TrimPrefix`. -/
def dropPrefixL : List Char → List Char → Option (List Char)
  | cs, [] => some cs
  | [], _ :: _ => none
  | c :: cs, p :: ps => if c = p then dropPrefixL cs ps else none

/-- Models `strings.HasPrefix`. -/
def hasPrefixB (cs pre : List Char) : Bool :=
  (dropPrefixL cs pre).isSome

/-- Models `strings.Trim(s, "/")`. -/
def trimSlashL (cs : List Char) : List Char :=
  ((cs.dropWhile isSlash).reverse.dropWhile isSlash).reverse

/-- Models `extractID` (src/main.go:159-165).  `strings.Split(s, "/")`
always yields at least one part, and its first part is exactly the text
before the first slash, so `parts[0]` is `takeWhile (not slash)` of the
trimmed rest and the `len(parts) < 1` branch is dead. -/
def extractIDL (path pre : List Char) : Option (List Char) :=
  match dropPrefixL path pre with
  | none => none
  | some rest =>
    let first := (trimSlashL rest).takeWhile fun c => !(isSlash c)
    if first = [] then none else some first

def extractID (path pre : String) : Option String :=
  (extractIDL path.data pre.data).map fun l => ⟨l⟩

/-! ### ObjectID (`primitive.ObjectID`) -/

/-- An ObjectID is 12 bytes; we model it as the list of its byte values. -/
abbrev OID := List Nat

def isHexDig (c : Char) : Bool :=
  ('0' ≤ c && c ≤ '9') || ('a' ≤ c && c ≤ 'f') || ('A' ≤ c && c ≤ 'F')

def hexVal (c : Char) : Nat :=
  if '0' ≤ c && c ≤ '9' then c.toNat - '0'.toNat
  else if 'a' ≤ c && c ≤ 'f' then c.toNat - 'a'.toNat + 10
  else c.toNat - 'A'.toNat + 10

/-- Models `hex.DecodeString`: pairs of hex digits become bytes; a non-digit
or an odd length is an error. -/
def hexBytes : List Char → Option (List Nat)
  | [] => some []
  | [_] => none
  | c1 :: c2 :: rest =>
    if isHexDig c1 && isHexDig c2 then
      (hexBytes rest).map fun bs => (16 * hexVal c1 + hexVal c2) :: bs
    else none

/-- Models `primitive.ObjectIDFromHex`: the string must be exactly 24 hex
digits (upper or lower case). -/
def objectIDFromHex (s : String) : Option OID :=
  if s.data.length = 24 then hexBytes s.data else none

/-- The zero `primitive.ObjectID` (12 zero bytes). -/
def zeroOID : OID := List.replicate 12 0

/-! ### The JSON parser (models `json.Decoder.Decode` reading one value) -/

def skipWs (cs : List Char) : List Char :=
  cs.dropWhile fun c => c = ' ' || c = '\t' || c = '\n' || c = '\r'

def escChar (e : Char) : Option Char :=
  if e = '"' || e = '\\' || e = '/' then some e
  else if e = 'n' then some '\n'
  else if e = 't' then some '\t'
  else if e = 'r' then some '\r'
  else if e = 'b' then some (Char.ofNat 8)
  else if e = 'f' then some (Char.ofNat 12)
  else none

/-- Parses the body of a JSON string after the opening quote, returning the
decoded content and the input after the closing quote.  (`\u` escapes are
not modelled.) -/
def parseStrBody : List Char → Option (List Char × List Char)
  | [] => none
  | '"' :: rest => some ([], rest)
  | '\\' :: e :: rest =>
    match escChar e with
    | none => none
    | some c => (parseStrBody rest).map fun p => (c :: p.1, p.2)
  | c :: rest => (parseStrBody rest).map fun p => (c :: p.1, p.2)

def isDigitC (c : Char) : Bool := '0' ≤ c && c ≤ '9'

def digitsVal (cs : List Char) : Nat :=
  cs.foldl (fun a c => 10 * a + (c.toNat - '0'.toNat)) 0

/-- Object members after `{` (first member onward); `pv` parses one value. -/
def parseMembersF (pv : List Char → Option (Json × List Char)) :
    Nat → List Char → Option (List (String × Json) × List Char)
  | 0 => fun _ => none
  | fuel + 1 => fun cs =>
    match skipWs cs with
    | '"' :: rest =>
      match parseStrBody rest with
      | none => none
      | some (key, r1) =>
        match skipWs r1 with
        | ':' :: r2 =>
          match pv r2 with
          | none => none
          | some (v, r3) =>
            match skipWs r3 with
            | ',' :: r4 =>
              (parseMembersF pv fuel r4).map fun p => ((⟨key⟩, v) :: p.1, p.2)
            | '}' :: r4 => some ([(⟨key⟩, v)], r4)
            | _ => none
        | _ => none
    | _ => none

/-- Array elements after `[` (first element onward). -/
def parseElemsF (pv : List Char → Option (Json × List Char)) :
    Nat → List Char → Option (List Json × List Char)
  | 0 => fun _ => none
  | fuel + 1 => fun cs =>
    match pv cs with
    | none => none
    | some (v, r) =>
      match skipWs r with
      | ',' :: r2 => (parseElemsF pv fuel r2).map fun p => (v :: p.1, p.2)
      | ']' :: r2 => some ([v], r2)
      | _ => none

/-- Parses one JSON value, returning it and the unread remainder.  Fuel make
the recursion structural; the top-level caller supplies enough for any
input of that length.  Floating point numbers are modelled as integers
only. -/
def parseValue : Nat → List Char → Option (Json × List Char)
  | 0 => fun _ => none
  | fuel + 1 => fun cs =>
    match skipWs cs with
    | 'n' :: 'u' :: 'l' :: 'l' :: rest => some (.null, rest)
    | 't' :: 'r' :: 'u' :: 'e' :: rest => some (.bool true, rest)
    | 'f' :: 'a' :: 'l' :: 's' :: 'e' :: rest => some (.bool false, rest)
    | '"' :: rest => (parseStrBody rest).map fun p => (.str ⟨p.1⟩, p.2)
    | '{' :: rest =>
      match skipWs rest with
      | '}' :: r => some (.obj [], r)
      | r => (parseMembersF (parseValue fuel) fuel r).map fun p => (.obj p.1, p.2)
    | '[' :: rest =>
      match skipWs rest with
      | ']' :: r => some (.arr [], r)
      | r => (parseElemsF (parseValue fuel) fuel r).map fun p => (.arr p.1, p.2)
    | '-' :: rest =>
      let ds := rest.takeWhile isDigitC
      if ds = [] then none
      else some (.num (-(digitsVal ds : Int)), rest.dropWhile isDigitC)
    | c :: rest =>
      if isDigitC c then
        some (.num (digitsVal (c :: rest.takeWhile isDigitC)), rest.dropWhile isDigitC)
      else none
    | [] => none

/-- Models one `json.Decoder.Decode` call on the request body: the first
JSON value is consumed, the rest of the body is left unread.  An empty or
malformed body is a decode error. -/
def parseJson (s : String) : Option (Json × List Char) :=
  parseValue (s.data.length + 2) s.data

/-! ### Unmarshalling into the Go structs -/

def lowerStr (s : String) : String := ⟨s.data.map Char.toLower⟩

/-- The decoded form of the Go struct `Name` (src/main.go:19-22):
`ID primitive.ObjectID`, `Name string`. -/
structure NamePayload where
  id : OID
  name : String

/-- One JSON object member applied to a `Name` struct being decoded.
Go matches struct fields case-insensitively, skips unknown fields,
treats `null` as a no-op and fails on type mismatches; `ObjectID`'s
`UnmarshalJSON` accepts a 24-hex string (or an empty string / `null`,
giving the zero id) and fails otherwise. -/
def setFromField (acc : NamePayload) (k : String) (v : Json) : Option NamePayload :=
  if lowerStr k = "name" then
    match v with
    | .str s => some { acc with name := s }
    | .null => some acc
    | _ => none
  else if lowerStr k = "id" then
    match v with
    | .null => some acc
    | .str s =>
      if s = "" then some { acc with id := zeroOID }
      else (objectIDFromHex s).map fun oid => { acc with id := oid }
    | _ => none
  else some acc

def unmarshalNameFields : List (String × Json) → NamePayload → Option NamePayload
  | [], acc => some acc
  | (k, v) :: rest, acc =>
    match setFromField acc k v with
    | none => none
    | some acc2 => unmarshalNameFields rest acc2

/-- Models `Decode(&payload)` for `var payload Name` given the parsed JSON
value: `null` leaves the zero struct, an object is decoded field by field,
anything else is a decode error. -/
def unmarshalName : Json → Option NamePayload
  | .null => some ⟨zeroOID, ""⟩
  | .obj fields => unmarshalNameFields fields ⟨zeroOID, ""⟩
  | _ => none

/-- One JSON object member applied to the PUT payload
`struct{ Name string }` (src/main.go:128): here `id` is an unknown field
and is skipped. -/
def setPutField (acc : String) (k : String) (v : Json) : Option String :=
  if lowerStr k = "name" then
    match v with
    | .str s => some s
    | .null => some acc
    | _ => none
  else some acc

def unmarshalPutFields : List (String × Json) → String → Option String
  | [], acc => some acc
  | (k, v) :: rest, acc =>
    match setPutField acc k v with
    | none => none
    | some acc2 => unmarshalPutFields rest acc2

def unmarshalPut : Json → Option String
  | .null => some ""
  | .obj fields => unmarshalPutFields fields ""
  | _ => none

/-- The whole decode of a POST `/names` body (src/main.go:64-67). -/
def decodeNameBody (s : String) : Option NamePayload :=
  match parseJson s with
  | none => none
  | some (j, _) => unmarshalName j

/-- The whole decode of a PUT `/names/{id}` body (src/main.go:128-131). -/
def decodePutBody (s : String) : Option String :=
  match parseJson s with
  | none => none
  | some (j, _) => unmarshalPut j

/-! ### The document store (the Mongo collection, modelled in memory) -/

/-- A stored document: `bson.M{"name": ...}` plus its store-assigned `_id`. -/
structure Doc where
  id : OID
  name : String

/-- The store handle: current documents plus the identifier the store will
assign to the next inserted document. -/
structure DB where
  docs : List Doc
  fresh : OID

/-- Models `collection.FindOne(ctx, bson.M{"_id": oid})`. -/
def findOneDoc : List Doc → OID → Option Doc
  | [], _ => none
  | d :: rest, oid => if d.id = oid then some d else findOneDoc rest oid

/-- Models `collection.UpdateByID(ctx, oid, bson.M{"$set": bson.M{"name": nm}})`:
the new document list and the `MatchedCount`. -/
def updateByID (docs : List Doc) (oid : OID) (nm : String) : List Doc × Nat :=
  (docs.map fun d => if d.id = oid then ⟨d.id, nm⟩ else d,
   if (findOneDoc docs oid).isSome then 1 else 0)

/-- Models `collection.DeleteOne(ctx, bson.M{"_id": oid})`: at most one
document (the first with the given id) is removed; second component is the
`DeletedCount`. -/
def deleteOneDoc : List Doc → OID → List Doc × Nat
  | [], _ => ([], 0)
  | d :: rest, oid =>
    if d.id = oid then (rest, 1)
    else (d :: (deleteOneDoc rest oid).1, (deleteOneDoc rest oid).2)

/-! ### Responses (src/main.go:186-201) -/

inductive RespBody where
  | jsonBody : Json → RespBody
  | textBody : String → RespBody

structure Response where
  status : Nat
  headers : List (String × String)
  body : Option RespBody

/-- Models `jsonWrite`: sets `Content-Type`, writes the status, encodes the
value. -/
def jsonWrite (status : Nat) (v : Json) : Response :=
  ⟨status, [("Content-Type", "application/json")], some (.jsonBody v)⟩

def ok (v : Json) : Response := jsonWrite 200 v

def created (v : Json) : Response := jsonWrite 201 v

/-- `map[string]any{"error": msg}`. -/
def badRequest (msg : String) : Response :=
  jsonWrite 400 (.obj [("error", .str msg)])

def notFound : Response :=
  jsonWrite 404 (.obj [("error", .str "not found")])

/-- `internal` surfaces a store failure as a 500; store failures are not
modelled, so no handler below produces it. -/
def internalErr (msg : String) : Response :=
  jsonWrite 500 (.obj [("error", .str msg)])

/-- `noContent` only writes the 204 status: no body, no content type. -/
def noContent : Response := ⟨204, [], none⟩

/-- Models `strings.Join`. -/
def joinSep (sep : String) : List String → String
  | [] => ""
  | [s] => s
  | s :: rest => s ++ sep ++ joinSep sep rest

/-- Models `methodNotAllowed`: an `Allow` header plus the JSON body
`{"allow": [...], "error": "method not allowed"}` (Go serializes map keys
in sorted order, hence `allow` before `error`). -/
def methodNotAllowed (allowed : List String) : Response :=
  ⟨405,
   [("Allow", joinSep ", " allowed), ("Content-Type", "application/json")],
   some (.jsonBody (.obj [("allow", .arr (allowed.map .str)),
                          ("error", .str "method not allowed")]))⟩

/-- The Go placeholder for `err.Error()` of a JSON decode failure; the
exact driver text is abstracted, only the `"invalid JSON: "` prefixing in
the source is kept. -/
def jsonDecodeErrMsg : String := "json decode error"

def invalidJsonResp : Response := badRequest ("invalid JSON: " ++ jsonDecodeErrMsg)

/-! ### Encoding the `Name` struct back to JSON -/

def hexDigitChar (n : Nat) : Char :=
  if n < 10 then Char.ofNat ('0'.toNat + n) else Char.ofNat ('a'.toNat + n - 10)

def byteHex (b : Nat) : List Char := [hexDigitChar (b / 16), hexDigitChar (b % 16)]

/-- `ObjectID.Hex()` (lower-case hex). -/
def oidHex (oid : OID) : String := ⟨(oid.map byteHex).flatten⟩

/-- JSON encoding of the struct `Name` (tags `id,omitempty` / `name`).
`omitempty` never fires on the 12-byte `ObjectID` array, so `id` is always
emitted. -/
def encodeName (d : Doc) : Json :=
  .obj [("id", .str (oidHex d.id)), ("name", .str d.name)]

/-- Encoding of the `[]Name` slice built by the list handler
(src/main.go:91-100): if the loop never appended, the slice is still `nil`
and `encoding/json` renders it as `null`, not `[]`. -/
def encodeNameSlice (l : List Doc) : Json :=
  match l with
  | [] => .null
  | _ => .arr (l.map encodeName)

/-! ### Handlers (src/main.go:55-155) -/

structure Request where
  method : String
  path : String
  body : String

def healthHandler : Response := ok (.obj [("status", .str "ok")])

/-- Models `namesHandler` (src/main.go:61-105).  Returns the response and
the store contents afterwards. -/
def namesHandler (req : Request) (db : DB) : Response × List Doc :=
  if req.method = "POST" then
    match decodeNameBody req.body with
    | none => (invalidJsonResp, db.docs)
    | some payload =>
      let trimmed := trimSpace payload.name
      if trimmed = "" then (badRequest "`name` is required", db.docs)
      else
        (created (encodeName ⟨db.fresh, trimmed⟩), db.docs ++ [⟨db.fresh, trimmed⟩])
  else if req.method = "GET" then
    (ok (encodeNameSlice db.docs), db.docs)
  else
    (methodNotAllowed ["GET", "POST"], db.docs)

/-- Models `nameByIDHandler` (src/main.go:110-155). -/
def nameByIDHandler (req : Request) (db : DB) : Response × List Doc :=
  match extractID req.path "/names/" with
  | none => (notFound, db.docs)
  | some idStr =>
    match objectIDFromHex idStr with
    | none => (badRequest "invalid id", db.docs)
    | some oid =>
      if req.method = "GET" then
        match findOneDoc db.docs oid with
        | none => (notFound, db.docs)
        | some d => (ok (encodeName d), db.docs)
      else if req.method = "PUT" then
        match decodePutBody req.body with
        | none => (invalidJsonResp, db.docs)
        | some nm =>
          let trimmed := trimSpace nm
          if trimmed = "" then (badRequest "`name` is required", db.docs)
          else
            if (updateByID db.docs oid trimmed).2 = 0 then (notFound, db.docs)
            else (ok (encodeName ⟨oid, trimmed⟩), (updateByID db.docs oid trimmed).1)
      else if req.method = "DELETE" then
        if (deleteOneDoc db.docs oid).2 = 0 then (notFound, db.docs)
        else (noContent, (deleteOneDoc db.docs oid).1)
      else
        (methodNotAllowed ["GET", "PUT", "DELETE"], db.docs)

/-! ### Router and middleware (src/main.go:44-50, 176-184) -/

/-- `http.ServeMux`'s 404 fallthrough (`http.NotFoundHandler`). -/
def default404 : Response :=
  ⟨404,
   [("Content-Type", "text/plain; charset=utf-8"), ("X-Content-Type-Options", "nosniff")],
   some (.textBody "404 page not found\n")⟩

/-- The registered patterns: `/health` (exact), `/names` (exact),
`/names/` (rooted subtree: matches every path with that prefix).  This is
the dispatch `ServeMux.Handler` performs after its clean-path
canonicalization; the canonicalization itself (the 301) is modelled in
`appFull` below. -/
def serveMux (req : Request) (db : DB) : Response × List Doc :=
  if req.path = "/health" then (healthHandler, db.docs)
  else if req.path = "/names" then namesHandler req db
  else if hasPrefixB req.path.data "/names/".data then nameByIDHandler req db
  else (default404, db.docs)

def corsHeaders : List (String × String) :=
  [("Access-Control-Allow-Origin", "*"),
   ("Access-Control-Allow-Headers", "Content-Type"),
   ("Access-Control-Allow-Methods", "GET,POST,PUT,DELETE,OPTIONS")]

def withCORS (resp : Response) : Response :=
  { resp with headers := corsHeaders ++ resp.headers }

/-- The complete service: `corsMiddleware(http.DefaultServeMux)`.  An
OPTIONS request short-circuits with 204 before any handler. -/
def app (req : Request) (db : DB) : Response × List Doc :=
  if req.method = "OPTIONS" then
    (⟨204, corsHeaders, none⟩, db.docs)
  else
    (withCORS (serveMux req db).1, (serveMux req db).2)

/-! ### `ServeMux`'s clean-path canonicalization (net/http `cleanPath`) -/

/-- Splits a character list at every slash; like `strings.Split(s, "/")`
it always yields at least one (possibly empty) part. -/
def splitSlashL : List Char → List (List Char)
  | [] => [[]]
  | c :: rest =>
    if c = '/' then [] :: splitSlashL rest
    else
      match splitSlashL rest with
      | [] => [[c]]
      | s :: ss => (c :: s) :: ss

/-- The segment stack of lexical path cleaning: empty segments and `.` are
dropped, `..` pops the latest segment (and is dropped at the root, the
rooted-path behaviour), anything else is pushed. -/
def cleanStack : List (List Char) → List (List Char) → List (List Char)
  | stk, [] => stk.reverse
  | stk, s :: rest =>
    if s = [] ∨ s = ['.'] then cleanStack stk rest
    else if s = ['.', '.'] then cleanStack stk.tail rest
    else cleanStack (s :: stk) rest

def joinSegs : List (List Char) → List Char
  | [] => []
  | [s] => s
  | s :: rest => s ++ '/' :: joinSegs rest

/-- `path.Clean` on a rooted path, in segment-stack form (the lazybuf loop
of `path.Clean` processes exactly these cases; `cleanPath` below only ever
cleans rooted paths).  The result never has a trailing slash except for
the root itself. -/
def pathCleanRooted (cs : List Char) : List Char :=
  match cleanStack [] (splitSlashL cs) with
  | [] => ['/']
  | stk => '/' :: joinSegs stk

/-- Models net/http's `cleanPath`: empty path → "/", a leading slash is
ensured, the path is `path.Clean`ed, and a trailing slash removed by the
cleaning is restored (the Go fast path `np = p` equals `np + "/"`). -/
def cleanPath (s : String) : String :=
  match s.data with
  | [] => "/"
  | c :: cs =>
    let p : List Char := if c = '/' then c :: cs else '/' :: c :: cs
    let np := pathCleanRooted p
    if p.getLast? = some '/' ∧ np ≠ ['/'] then ⟨np ++ ['/']⟩ else ⟨np⟩

/-- The anchor body `http.Redirect` writes for GET requests; the exact
trailing-newline framing of the writer call is abstracted to the anchor
line itself. -/
def redirectHTML (url : String) : String :=
  "<a href=\"" ++ url ++ "\">Moved Permanently</a>.\n"

/-- The response of the `http.RedirectHandler(url, 301)` that
`ServeMux.Handler` returns for a non-clean path: `Location` is set; GET
additionally gets a `text/html` content type and the short anchor body;
HEAD gets the content type but no body; every other method gets neither
(no content type was set before `Redirect` runs, since the CORS
middleware sets only its three headers). -/
def movedPermanently (url method : String) : Response :=
  if method = "GET" then
    ⟨301, [("Location", url), ("Content-Type", "text/html; charset=utf-8")],
     some (.textBody (redirectHTML url))⟩
  else if method = "HEAD" then
    ⟨301, [("Location", url), ("Content-Type", "text/html; charset=utf-8")], none⟩
  else ⟨301, [("Location", url)], none⟩

/-- The complete service including `ServeMux.Handler`'s clean-path
canonicalization: OPTIONS is still short-circuited by the CORS middleware
first; then a non-CONNECT request whose path differs from its cleaned
form is answered 301 to the cleaned path (with the CORS headers the
middleware already set); otherwise the request is dispatched as in `app`.
(`ServeMux`'s other redirect, `redirectToPathSlash`, never fires for this
route table: the only pattern ending in a slash is "/names/", and
"/names" has its own handler.) -/
def appFull (req : Request) (db : DB) : Response × List Doc :=
  if req.method = "OPTIONS" then (⟨204, corsHeaders, none⟩, db.docs)
  else if req.method ≠ "CONNECT" ∧ cleanPath req.path ≠ req.path then
    (withCORS (movedPermanently (cleanPath req.path) req.method), db.docs)
  else (withCORS (serveMux req db).1, (serveMux req db).2)

/-- A sample valid ObjectID (`"507f1f77bcf86cd799439011"`), used by
concrete witnesses. -/
def sampleOID : OID := [0x50, 0x7f, 0x1f, 0x77, 0xbc, 0xf8, 0x6c, 0xd7, 0x99, 0x43, 0x90, 0x11]

/-! ### General lemmas about the string machinery -/

theorem data_mk_append (a b : String) : (a ++ b).data = a.data ++ b.data := by
  cases a
  cases b
  rfl

theorem strEta (s : String) : (⟨s.data⟩ : String) = s := rfl

theorem dropPrefixL_concat (p x : List Char) : dropPrefixL (p ++ x) p = some x := by
  induction p with
  | nil =>
    cases x with
    | nil => rfl
    | cons c cs => rfl
  | cons c cs ih => simp [dropPrefixL, ih]

theorem hasPrefixB_concat (p x : List Char) : hasPrefixB (p ++ x) p = true := by
  simp [hasPrefixB, dropPrefixL_concat]

theorem names_slash_data (s : String) :
    ("/names/" ++ s).data = '/' :: 'n' :: 'a' :: 'm' :: 'e' :: 's' :: '/' :: s.data := by
  rw [data_mk_append]
  rfl

theorem ne_health (s : String) : ("/names/" ++ s) ≠ "/health" := by
  intro h
  have h2 := congrArg String.data h
  rw [names_slash_data] at h2
  have h3 : ("/health" : String).data = '/' :: 'h' :: 'e' :: 'a' :: 'l' :: 't' :: 'h' :: [] := rfl
  rw [h3] at h2
  injection h2 with _ h4
  injection h4 with h5 _
  exact absurd h5 (by decide)

theorem ne_names (s : String) : ("/names/" ++ s) ≠ "/names" := by
  intro h
  have h2 := congrArg String.data h
  rw [names_slash_data] at h2
  have h3 : ("/names" : String).data = '/' :: 'n' :: 'a' :: 'm' :: 'e' :: 's' :: [] := rfl
  rw [h3] at h2
  injection h2 with _ h4
  injection h4 with _ h5
  injection h5 with _ h6
  injection h6 with _ h7
  injection h7 with _ h8
  injection h8 with _ h9
  exact List.cons_ne_nil _ _ h9

theorem hasPrefixB_names (s : String) :
    hasPrefixB ("/names/" ++ s).data "/names/".data = true := by
  rw [data_mk_append]
  exact hasPrefixB_concat _ _

theorem takeWhile_allTrue {p : Char → Bool} {l : List Char}
    (h : ∀ c ∈ l, p c = true) : l.takeWhile p = l := by
  induction l with
  | nil => rfl
  | cons c cs ih =>
    rw [List.takeWhile_cons, h c (by simp), if_pos rfl,
      ih fun x hx => h x (by simp [hx])]

theorem takeWhile_concat_allTrue {p : Char → Bool} {a : List Char}
    (h : ∀ c ∈ a, p c = true) (b : List Char) :
    (a ++ b).takeWhile p = a ++ b.takeWhile p := by
  induction a with
  | nil => rfl
  | cons c cs ih =>
    rw [List.cons_append, List.takeWhile_cons, h c (by simp), if_pos rfl,
      ih fun x hx => h x (by simp [hx]), List.cons_append]

theorem takeWhile_concat_allFalse {p : Char → Bool} (y : List Char) {z : List Char}
    (h : ∀ c ∈ z, p c = false) :
    (y ++ z).takeWhile p = y.takeWhile p := by
  induction y with
  | nil =>
    cases z with
    | nil => rfl
    | cons c cs =>
      simp only [List.nil_append, List.takeWhile_nil, List.takeWhile_cons, h c (by simp)]
      rfl
  | cons c cs ih =>
    simp only [List.cons_append, List.takeWhile_cons, ih]

theorem takeWhile_trimRight (x : List Char) :
    ((x.reverse.dropWhile isSlash).reverse).takeWhile (fun c => !(isSlash c))
      = x.takeWhile fun c => !(isSlash c) := by
  have hx : x = (x.reverse.dropWhile isSlash).reverse ++ (x.reverse.takeWhile isSlash).reverse := by
    rw [← List.reverse_append, List.takeWhile_append_dropWhile, List.reverse_reverse]
  have hz : ∀ c ∈ (x.reverse.takeWhile isSlash).reverse, (!(isSlash c)) = false := by
    intro c hc
    rw [List.mem_reverse] at hc
    have := List.mem_takeWhile_imp hc
    simp [this]
  conv_rhs => rw [hx]
  rw [takeWhile_concat_allFalse _ hz]

theorem extractIDL_seg {seg : List Char} (h1 : seg ≠ [])
    (h2 : ∀ c ∈ seg, isSlash c = false) :
    extractIDL ("/names/".data ++ seg) "/names/".data = some seg := by
  have hdrop : seg.dropWhile isSlash = seg := by
    cases seg with
    | nil => rfl
    | cons c cs => rw [List.dropWhile_cons, h2 c (by simp)]; rfl
  have htake : seg.takeWhile (fun c => !(isSlash c)) = seg :=
    takeWhile_allTrue fun c hc => by simp [h2 c hc]
  simp only [extractIDL, dropPrefixL_concat, trimSlashL, hdrop, takeWhile_trimRight, htake,
    if_neg h1]

theorem extractIDL_seg_extra {seg : List Char} (extra : List Char) (h1 : seg ≠ [])
    (h2 : ∀ c ∈ seg, isSlash c = false) :
    extractIDL ("/names/".data ++ (seg ++ '/' :: extra)) "/names/".data = some seg := by
  have hdrop : (seg ++ '/' :: extra).dropWhile isSlash = seg ++ '/' :: extra := by
    cases seg with
    | nil => exact absurd rfl h1
    | cons c cs =>
      rw [List.cons_append, List.dropWhile_cons, h2 c (by simp)]
      rfl
  have htake : (seg ++ '/' :: extra).takeWhile (fun c => !(isSlash c)) = seg := by
    rw [takeWhile_concat_allTrue (fun c hc => by simp [h2 c hc]), List.takeWhile_cons]
    simp [isSlash]
  simp only [extractIDL, dropPrefixL_concat, trimSlashL, hdrop, takeWhile_trimRight, htake,
    if_neg h1]

theorem extractID_seg (seg : String) (h1 : seg.data ≠ [])
    (h2 : ∀ c ∈ seg.data, isSlash c = false) :
    extractID ("/names/" ++ seg) "/names/" = some seg := by
  unfold extractID
  rw [data_mk_append, extractIDL_seg h1 h2]
  simp [strEta]

theorem data_append3 (seg extra : String) :
    ("/names/" ++ seg ++ "/" ++ extra).data
      = "/names/".data ++ (seg.data ++ '/' :: extra.data) := by
  simp only [data_mk_append, List.append_assoc]
  rfl

theorem extractID_seg_extra (seg extra : String) (h1 : seg.data ≠ [])
    (h2 : ∀ c ∈ seg.data, isSlash c = false) :
    extractID ("/names/" ++ seg ++ "/" ++ extra) "/names/" = some seg := by
  unfold extractID
  rw [data_append3, extractIDL_seg_extra _ h1 h2]
  simp [strEta]

/-! ### Routing lemmas -/

theorem app_names_exact (m body : String) (db : DB) (hm : m ≠ "OPTIONS") :
    app ⟨m, "/names", body⟩ db
      = (withCORS (namesHandler ⟨m, "/names", body⟩ db).1,
         (namesHandler ⟨m, "/names", body⟩ db).2) := by
  simp only [app, serveMux, if_neg hm]
  simp

theorem app_sub (m p body : String) (db : DB) (hm : m ≠ "OPTIONS")
    (h1 : p ≠ "/health") (h2 : p ≠ "/names")
    (h3 : hasPrefixB p.data "/names/".data = true) :
    app ⟨m, p, body⟩ db
      = (withCORS (nameByIDHandler ⟨m, p, body⟩ db).1,
         (nameByIDHandler ⟨m, p, body⟩ db).2) := by
  simp only [app, serveMux, if_neg hm, if_neg h1, if_neg h2, h3, if_true]

/-- On a path already in canonical form the full pipeline is exactly the
clean-path dispatch `app`: the 301 branch cannot fire. -/
theorem appFull_clean (req : Request) (db : DB)
    (h : cleanPath req.path = req.path) :
    appFull req db = app req db := by
  by_cases hm : req.method = "OPTIONS"
  · simp only [appFull, app, if_pos hm]
  · simp only [appFull, app, if_neg hm]
    rw [if_neg fun hc => hc.2 h]

/-- The item-level handler sees the path only through `extractID`. -/
theorem nameByID_pathCongr (m : String) {p1 p2 : String} (body : String) (db : DB)
    (h : extractID p1 "/names/" = extractID p2 "/names/") :
    nameByIDHandler ⟨m, p1, body⟩ db = nameByIDHandler ⟨m, p2, body⟩ db := by
  simp only [nameByIDHandler, h]

/-- The whole service sees the request body only through the two decoders. -/
theorem app_bodyCongr (m p b1 b2 : String) (db : DB)
    (hname : decodeNameBody b1 = decodeNameBody b2)
    (hput : decodePutBody b1 = decodePutBody b2) :
    app ⟨m, p, b1⟩ db = app ⟨m, p, b2⟩ db := by
  simp only [app, serveMux, namesHandler, nameByIDHandler, hname, hput]

/-! ### Store-operation lemmas -/

theorem deleteOneDoc_notMem {docs : List Doc} {oid : OID}
    (h : ∀ e ∈ docs, e.id ≠ oid) :
    deleteOneDoc docs oid = (docs, 0) := by
  induction docs with
  | nil => rfl
  | cons d rest ih =>
    have hd : ¬ d.id = oid := h d (by simp)
    have ihr := ih fun e he => h e (by simp [he])
    simp only [deleteOneDoc, if_neg hd, ihr]

theorem deleteOneDoc_mem {docs : List Doc} {oid : OID} {d : Doc}
    (hnd : (docs.map Doc.id).Nodup) (hmem : d ∈ docs) (hid : d.id = oid) :
    (deleteOneDoc docs oid).2 = 1
    ∧ (deleteOneDoc docs oid).1.length + 1 = docs.length
    ∧ ∀ e ∈ (deleteOneDoc docs oid).1, e.id ≠ oid := by
  induction docs with
  | nil => cases hmem
  | cons a rest ih =>
    rw [List.map_cons, List.nodup_cons] at hnd
    obtain ⟨hnotin, hnd2⟩ := hnd
    by_cases ha : a.id = oid
    · have hD : deleteOneDoc (a :: rest) oid = (rest, 1) := by
        simp [deleteOneDoc, if_pos ha]
      rw [hD]
      refine ⟨rfl, by simp, ?_⟩
      intro e he heq
      exact hnotin (by rw [ha, ← heq]; exact List.mem_map_of_mem Doc.id he)
    · have hdr : d ∈ rest := by
        cases List.mem_cons.mp hmem with
        | inl h => exact absurd (h ▸ hid) ha
        | inr h => exact h
      obtain ⟨hc, hlen, hmem2⟩ := ih hnd2 hdr
      have hD : deleteOneDoc (a :: rest) oid
          = (a :: (deleteOneDoc rest oid).1, (deleteOneDoc rest oid).2) := by
        simp [deleteOneDoc, if_neg ha]
      rw [hD]
      refine ⟨hc, ?_, ?_⟩
      · simp only [List.length_cons]
        omega
      · intro e he
        cases List.mem_cons.mp he with
        | inl h => subst h; exact ha
        | inr h => exact hmem2 e h

/-! ### Create-path lemmas (shared by several claims) -/

theorem post_decode_none (body : String) (db : DB) (h : decodeNameBody body = none) :
    app ⟨"POST", "/names", body⟩ db = (withCORS invalidJsonResp, db.docs) := by
  rw [app_names_exact _ _ _ (by decide)]
  simp only [namesHandler, h]
  simp

theorem post_decode_empty (body : String) (db : DB) (p : NamePayload)
    (hp : decodeNameBody body = some p) (he : trimSpace p.name = "") :
    app ⟨"POST", "/names", body⟩ db
      = (withCORS (badRequest "`name` is required"), db.docs) := by
  rw [app_names_exact _ _ _ (by decide)]
  simp only [namesHandler, hp, he]
  simp

theorem post_decode_ok (body : String) (db : DB) (p : NamePayload)
    (hp : decodeNameBody body = some p) (he : ¬ trimSpace p.name = "") :
    app ⟨"POST", "/names", body⟩ db
      = (withCORS (created (encodeName ⟨db.fresh, trimSpace p.name⟩)),
         db.docs ++ [⟨db.fresh, trimSpace p.name⟩]) := by
  rw [app_names_exact _ _ _ (by decide)]
  simp only [namesHandler, hp, if_neg he]
  simp [if_neg he]

theorem setFromField_unknown (acc : NamePayload) (k : String) (v : Json)
    (hk1 : ¬ lowerStr k = "name") (hk2 : ¬ lowerStr k = "id") :
    setFromField acc k v = some acc := by
  delta setFromField
  rw [if_neg hk1, if_neg hk2]

theorem setPutField_unknown (acc : String) (k : String) (v : Json)
    (hk : ¬ lowerStr k = "name") :
    setPutField acc k v = some acc := by
  delta setPutField
  rw [if_neg hk]

/-! ### The claims -/

/-- C1 counterexample: on the empty collection, GET /names answers 200 but
its body is the JSON value `null` — not the encoding of an empty array —
because the handler's `[]Name` slice is still `nil` when nothing was
appended. -/
theorem C1_null_body_cx :
    (app ⟨"GET", "/names", ""⟩ ⟨[], zeroOID⟩).1.status = 200
    ∧ (app ⟨"GET", "/names", ""⟩ ⟨[], zeroOID⟩).1.body = some (.jsonBody .null)
    ∧ Json.null ≠ Json.arr [] :=
  ⟨rfl, rfl, fun h => Json.noConfusion h⟩

/-- C1 (amended): when the collection is empty, the List operation responds
with status 200 and the JSON body `null` (the nil slice encoding), for any
body and any pending fresh id. -/
theorem C1_empty_list_returns_null (fresh : OID) (body : String) :
    app ⟨"GET", "/names", body⟩ ⟨[], fresh⟩ = (withCORS (ok Json.null), []) := by
  rw [app_names_exact _ _ _ (by decide)]
  rfl

/-- C2 counterexample: a path with extra segments after the identifier is
not answered 404 by the router fallthrough: `/names/abc/extra` reaches the
item handler and yields 400 "invalid id", and with a valid identifier and
a matching document `/names/<id>/extra` performs the read and yields
200. -/
theorem C2_handler_reached_cx :
    (app ⟨"GET", "/names/abc/extra", ""⟩ ⟨[], zeroOID⟩).1
      = withCORS (badRequest "invalid id")
    ∧ (app ⟨"GET", "/names/507f1f77bcf86cd799439011/extra", ""⟩
        ⟨[⟨sampleOID, "Ann"⟩], zeroOID⟩).1
      = withCORS (ok (encodeName ⟨sampleOID, "Ann"⟩)) :=
  ⟨rfl, rfl⟩

/-- C2 (amended): a request whose path has extra segments after the
identifier is routed to the item-level handler with the extra segments
stripped: `extractID` returns the first segment and the request behaves
exactly like the request without the extra segments (400 when that segment
is not a valid ObjectID, otherwise the operation runs on it). -/
theorem C2_extra_segments_stripped (m body seg extra : String) (db : DB)
    (h1 : seg.data ≠ []) (h2 : ∀ c ∈ seg.data, isSlash c = false) :
    extractID ("/names/" ++ seg ++ "/" ++ extra) "/names/" = some seg
    ∧ app ⟨m, "/names/" ++ seg ++ "/" ++ extra, body⟩ db
        = app ⟨m, "/names/" ++ seg, body⟩ db := by
  refine ⟨extractID_seg_extra seg extra h1 h2, ?_⟩
  by_cases hm : m = "OPTIONS"
  · subst hm; rfl
  · have hpfx : hasPrefixB ("/names/" ++ seg ++ "/" ++ extra).data "/names/".data = true := by
      rw [data_append3]; exact hasPrefixB_concat _ _
    have hpath : ("/names/" ++ seg ++ "/" ++ extra) = "/names/" ++ (seg ++ "/" ++ extra) := by
      simp [String.append_assoc]
    rw [hpath] at hpfx ⊢
    rw [app_sub _ _ _ _ hm (ne_health _) (ne_names _) hpfx,
      app_sub _ _ _ _ hm (ne_health _) (ne_names _) (hasPrefixB_names _)]
    have hx : extractID ("/names/" ++ (seg ++ "/" ++ extra)) "/names/"
        = extractID ("/names/" ++ seg) "/names/" := by
      rw [← hpath, extractID_seg_extra seg extra h1 h2, extractID_seg seg h1 h2]
    rw [nameByID_pathCongr m body db hx]

theorem C2_extra_segments_stripped_witness :
    extractID "/names/abc/extra" "/names/" = some "abc"
    ∧ app ⟨"DELETE", "/names/abc/extra", ""⟩ ⟨[], zeroOID⟩
        = app ⟨"DELETE", "/names/abc", ""⟩ ⟨[], zeroOID⟩ :=
  C2_extra_segments_stripped "DELETE" "" "abc" "extra" ⟨[], zeroOID⟩ (by decide) (by decide)

/-- C3: an identifier that is not a valid store ObjectID makes read-one,
replace-name and delete answer 400 `{"error":"invalid id"}`, with the
response independent of the store contents and the store unchanged (the
check precedes every store call). -/
theorem C3_invalid_id_rejected (m seg body : String) (db : DB)
    (h1 : seg.data ≠ []) (h2 : ∀ c ∈ seg.data, isSlash c = false)
    (h3 : objectIDFromHex seg = none)
    (hm : m = "GET" ∨ m = "PUT" ∨ m = "DELETE") :
    app ⟨m, "/names/" ++ seg, body⟩ db
      = (withCORS (badRequest "invalid id"), db.docs) := by
  have hopt : m ≠ "OPTIONS" := by rcases hm with rfl | rfl | rfl <;> decide
  rw [app_sub _ _ _ _ hopt (ne_health _) (ne_names _) (hasPrefixB_names _)]
  simp only [nameByIDHandler, extractID_seg seg h1 h2, h3]

theorem C3_invalid_id_rejected_witness :
    app ⟨"GET", "/names/not-an-id", ""⟩ ⟨[⟨sampleOID, "Ann"⟩], zeroOID⟩
      = (withCORS (badRequest "invalid id"), [⟨sampleOID, "Ann"⟩]) :=
  C3_invalid_id_rejected "GET" "not-an-id" "" ⟨[⟨sampleOID, "Ann"⟩], zeroOID⟩
    (by decide) (by decide) (by decide) (Or.inl rfl)

/-- C4: Create validation: a body that fails to decode yields 400 with the
"invalid JSON: ..." message and no insert; a decoded name that is empty
after trimming yields 400 "`name` is required" and no insert; otherwise
exactly one document is appended and the response is 201 with the
store-assigned id and the trimmed name. -/
theorem C4_create_validation (body : String) (db : DB) :
    (decodeNameBody body = none →
      app ⟨"POST", "/names", body⟩ db = (withCORS invalidJsonResp, db.docs))
    ∧ (∀ p, decodeNameBody body = some p → trimSpace p.name = "" →
      app ⟨"POST", "/names", body⟩ db
        = (withCORS (badRequest "`name` is required"), db.docs))
    ∧ (∀ p, decodeNameBody body = some p → ¬ trimSpace p.name = "" →
      app ⟨"POST", "/names", body⟩ db
        = (withCORS (created (encodeName ⟨db.fresh, trimSpace p.name⟩)),
           db.docs ++ [⟨db.fresh, trimSpace p.name⟩])) :=
  ⟨fun h => post_decode_none body db h,
   fun p hp he => post_decode_empty body db p hp he,
   fun p hp he => post_decode_ok body db p hp he⟩

theorem C4_create_validation_witness :
    app ⟨"POST", "/names", "\x7b\"name\":\" Alice \"\x7d"⟩ ⟨[], sampleOID⟩
      = (withCORS (created (encodeName ⟨sampleOID, "Alice"⟩)), [⟨sampleOID, "Alice"⟩]) :=
  (C4_create_validation "\x7b\"name\":\" Alice \"\x7d" ⟨[], sampleOID⟩).2.2
    ⟨zeroOID, " Alice "⟩ rfl (by decide)

/-- C5: Replace-name validation order: with an id-bearing path, an invalid
identifier yields 400 "invalid id" whatever the body; with a valid
identifier a non-decoding body yields 400 "invalid JSON: ..."; with a valid
identifier and a decoded name that trims to empty the answer is 400
"`name` is required".  In each failing case the store is unchanged. -/
theorem C5_put_validation_order (seg body : String) (db : DB)
    (h1 : seg.data ≠ []) (h2 : ∀ c ∈ seg.data, isSlash c = false) :
    (objectIDFromHex seg = none →
      app ⟨"PUT", "/names/" ++ seg, body⟩ db
        = (withCORS (badRequest "invalid id"), db.docs))
    ∧ (objectIDFromHex seg ≠ none → decodePutBody body = none →
      app ⟨"PUT", "/names/" ++ seg, body⟩ db = (withCORS invalidJsonResp, db.docs))
    ∧ (∀ nm, objectIDFromHex seg ≠ none → decodePutBody body = some nm →
        trimSpace nm = "" →
      app ⟨"PUT", "/names/" ++ seg, body⟩ db
        = (withCORS (badRequest "`name` is required"), db.docs)) := by
  have happ := app_sub "PUT" ("/names/" ++ seg) body db (by decide)
    (ne_health _) (ne_names _) (hasPrefixB_names _)
  have hx := extractID_seg seg h1 h2
  refine ⟨fun h => ?_, fun h hb => ?_, fun nm h hb ht => ?_⟩
  · rw [happ]
    simp only [nameByIDHandler, hx, h]
  · obtain ⟨oid, hoid⟩ := Option.ne_none_iff_exists'.mp h
    rw [happ]
    simp only [nameByIDHandler, hx, hoid, hb]
    simp
  · obtain ⟨oid, hoid⟩ := Option.ne_none_iff_exists'.mp h
    rw [happ]
    simp only [nameByIDHandler, hx, hoid, hb, ht]
    simp

theorem C5_put_validation_order_witness :
    app ⟨"PUT", "/names/507f1f77bcf86cd799439011", "\x7b\"name\":\"  \"\x7d"⟩ ⟨[], zeroOID⟩
      = (withCORS (badRequest "`name` is required"), []) :=
  (C5_put_validation_order "507f1f77bcf86cd799439011" "\x7b\"name\":\"  \"\x7d" ⟨[], zeroOID⟩
      (by decide) (by decide)).2.2 "  " (by decide) rfl rfl

/-- C6: Delete with a valid identifier: when no stored document has that id
the answer is 404 with the store unchanged; when one does, the answer is
204 (no body), exactly that document is removed, and repeating the same
delete on the resulting store yields 404 and changes nothing — 204 then
404. -/
theorem C6_delete_idempotence (seg : String) (oid : OID) (db : DB) (d : Doc)
    (h1 : seg.data ≠ []) (h2 : ∀ c ∈ seg.data, isSlash c = false)
    (hoid : objectIDFromHex seg = some oid)
    (hnd : (db.docs.map Doc.id).Nodup)
    (hmem : d ∈ db.docs) (hid : d.id = oid) :
    (∀ db2 : DB, (∀ e ∈ db2.docs, e.id ≠ oid) →
      app ⟨"DELETE", "/names/" ++ seg, ""⟩ db2 = (withCORS notFound, db2.docs))
    ∧ (app ⟨"DELETE", "/names/" ++ seg, ""⟩ db).1 = withCORS noContent
    ∧ (app ⟨"DELETE", "/names/" ++ seg, ""⟩ db).2.length + 1 = db.docs.length
    ∧ (∀ e ∈ (app ⟨"DELETE", "/names/" ++ seg, ""⟩ db).2, e.id ≠ oid)
    ∧ app ⟨"DELETE", "/names/" ++ seg, ""⟩
        ⟨(app ⟨"DELETE", "/names/" ++ seg, ""⟩ db).2, db.fresh⟩
      = (withCORS notFound, (app ⟨"DELETE", "/names/" ++ seg, ""⟩ db).2) := by
  have hx := extractID_seg seg h1 h2
  have happ : ∀ db2 : DB, app ⟨"DELETE", "/names/" ++ seg, ""⟩ db2
      = (if (deleteOneDoc db2.docs oid).2 = 0 then (withCORS notFound, db2.docs)
         else (withCORS noContent, (deleteOneDoc db2.docs oid).1)) := by
    intro db2
    rw [app_sub _ _ _ _ (by decide) (ne_health _) (ne_names _) (hasPrefixB_names _)]
    simp only [nameByIDHandler, hx, hoid]
    by_cases hz : (deleteOneDoc db2.docs oid).2 = 0
    · simp [hz]
    · simp [hz]
  have hdel404 : ∀ db2 : DB, (∀ e ∈ db2.docs, e.id ≠ oid) →
      app ⟨"DELETE", "/names/" ++ seg, ""⟩ db2 = (withCORS notFound, db2.docs) := by
    intro db2 hnone
    rw [happ db2, deleteOneDoc_notMem hnone]
    simp
  obtain ⟨hc, hlen, hout⟩ := deleteOneDoc_mem hnd hmem hid
  have h204 : app ⟨"DELETE", "/names/" ++ seg, ""⟩ db
      = (withCORS noContent, (deleteOneDoc db.docs oid).1) := by
    rw [happ db, if_neg (by omega)]
  refine ⟨hdel404, ?_, ?_, ?_, ?_⟩
  · rw [h204]
  · rw [h204]; exact hlen
  · rw [h204]; exact hout
  · rw [h204]
    exact hdel404 ⟨(deleteOneDoc db.docs oid).1, db.fresh⟩ hout

theorem C6_delete_idempotence_witness :
    (app ⟨"DELETE", "/names/507f1f77bcf86cd799439011", ""⟩
        ⟨[⟨sampleOID, "Ann"⟩], zeroOID⟩).1 = withCORS noContent
    ∧ app ⟨"DELETE", "/names/507f1f77bcf86cd799439011", ""⟩
        ⟨(app ⟨"DELETE", "/names/507f1f77bcf86cd799439011", ""⟩
            ⟨[⟨sampleOID, "Ann"⟩], zeroOID⟩).2, zeroOID⟩
      = (withCORS notFound,
         (app ⟨"DELETE", "/names/507f1f77bcf86cd799439011", ""⟩
            ⟨[⟨sampleOID, "Ann"⟩], zeroOID⟩).2) := by
  have h := C6_delete_idempotence "507f1f77bcf86cd799439011" sampleOID
    ⟨[⟨sampleOID, "Ann"⟩], zeroOID⟩ ⟨sampleOID, "Ann"⟩
    (by decide) (by decide) rfl (by simp) (by simp) rfl
  exact ⟨h.2.1, h.2.2.2.2⟩

/-- C7 counterexample: OPTIONS is a method other than GET and POST, yet
OPTIONS /names is answered 204 by the CORS middleware, not 405. -/
theorem C7_options_cx :
    (app ⟨"OPTIONS", "/names", ""⟩ ⟨[], zeroOID⟩).1.status = 204
    ∧ (204 : Nat) ≠ 405 :=
  ⟨rfl, by decide⟩

/-- C7 (amended): every request to the exact path /names whose method is
none of GET, POST and OPTIONS is answered 405 with an `Allow: GET, POST`
header and the JSON body `{"allow":["GET","POST"],"error":"method not
allowed"}`; OPTIONS is short-circuited to 204 by the CORS middleware. -/
theorem C7_method_not_allowed (m body : String) (db : DB)
    (hg : m ≠ "GET") (hp : m ≠ "POST") (ho : m ≠ "OPTIONS") :
    app ⟨m, "/names", body⟩ db
      = (withCORS (methodNotAllowed ["GET", "POST"]), db.docs) := by
  rw [app_names_exact _ _ _ ho]
  simp only [namesHandler, if_neg hp, if_neg hg]

theorem C7_method_not_allowed_witness :
    app ⟨"PATCH", "/names", ""⟩ ⟨[], zeroOID⟩
      = (withCORS (methodNotAllowed ["GET", "POST"]), []) :=
  C7_method_not_allowed "PATCH" "" ⟨[], zeroOID⟩ (by decide) (by decide) (by decide)

/-- C8: the client-supplied id never influences Create: whenever a 201 is
produced, its id is the store-assigned fresh id and the inserted document
carries only the (trimmed) name; two bodies decoding to the same name —
whatever their id fields — produce identical responses and store
contents. -/
theorem C8_client_id_ignored (db : DB) :
    (∀ body p, decodeNameBody body = some p → ¬ trimSpace p.name = "" →
      app ⟨"POST", "/names", body⟩ db
        = (withCORS (created (encodeName ⟨db.fresh, trimSpace p.name⟩)),
           db.docs ++ [⟨db.fresh, trimSpace p.name⟩]))
    ∧ (∀ b1 b2 p1 p2, decodeNameBody b1 = some p1 → decodeNameBody b2 = some p2 →
        p1.name = p2.name →
      app ⟨"POST", "/names", b1⟩ db = app ⟨"POST", "/names", b2⟩ db) := by
  refine ⟨fun body p hp he => post_decode_ok body db p hp he, ?_⟩
  intro b1 b2 p1 p2 hp1 hp2 hn
  by_cases he : trimSpace p1.name = ""
  · rw [post_decode_empty b1 db p1 hp1 he, post_decode_empty b2 db p2 hp2 (hn ▸ he)]
  · rw [post_decode_ok b1 db p1 hp1 he, post_decode_ok b2 db p2 hp2 (hn ▸ he), hn]

theorem C8_client_id_ignored_witness :
    decodeNameBody "\x7b\"id\":\"aaaaaaaaaaaaaaaaaaaaaaaa\",\"name\":\"Zed\"\x7d"
      = some ⟨List.replicate 12 0xaa, "Zed"⟩
    ∧ app ⟨"POST", "/names", "\x7b\"id\":\"aaaaaaaaaaaaaaaaaaaaaaaa\",\"name\":\"Zed\"\x7d"⟩
        ⟨[], sampleOID⟩
      = (withCORS (created (encodeName ⟨sampleOID, "Zed"⟩)), [⟨sampleOID, "Zed"⟩]) :=
  ⟨rfl,
   (C8_client_id_ignored ⟨[], sampleOID⟩).1 _ ⟨List.replicate 12 0xaa, "Zed"⟩ rfl (by decide)⟩

/-- C9 counterexample: the claim names /names// as an instance of its 404
behaviour, but there the service answers `ServeMux`'s clean-path 301
redirect (`cleanPath "/names//" = "/names/"` differs from the request
path), not 404. -/
theorem C9_double_slash_redirect_cx :
    (appFull ⟨"GET", "/names//", ""⟩ ⟨[], zeroOID⟩).1.status = 301
    ∧ (301 : Nat) ≠ 404 :=
  ⟨rfl, by decide⟩

/-- C9 (amended): on the clean path /names/ (empty identifier segment)
every non-OPTIONS request is answered 404 "not found" with the store
untouched — the failed id extraction short-circuits before the
identifier-format validation (which would give 400) can run.  A request
to /names// is instead answered first by `ServeMux`'s clean-path 301
redirect to /names/ (for every method other than OPTIONS and the
uncanonicalized CONNECT), whose target then yields that same 404. -/
theorem C9_missing_id_not_found (m body : String) (db : DB) (hm : m ≠ "OPTIONS") :
    appFull ⟨m, "/names/", body⟩ db = (withCORS notFound, db.docs)
    ∧ (m ≠ "CONNECT" →
      appFull ⟨m, "/names//", body⟩ db
        = (withCORS (movedPermanently "/names/" m), db.docs)
      ∧ cleanPath "/names//" = "/names/") := by
  constructor
  · rw [appFull_clean _ _ rfl]
    rw [app_sub m "/names/" body db hm (by decide) (by decide) (by decide)]
    simp only [nameByIDHandler, show extractID "/names/" "/names/" = none from rfl]
  · intro hc
    refine ⟨?_, rfl⟩
    simp only [appFull, if_neg hm]
    rw [if_pos ⟨hc, by decide⟩,
      show cleanPath "/names//" = "/names/" from rfl]

theorem C9_missing_id_not_found_witness :
    appFull ⟨"GET", "/names/", ""⟩ ⟨[⟨sampleOID, "Ann"⟩], zeroOID⟩
      = (withCORS notFound, [⟨sampleOID, "Ann"⟩])
    ∧ appFull ⟨"GET", "/names//", ""⟩ ⟨[⟨sampleOID, "Ann"⟩], zeroOID⟩
      = (withCORS (movedPermanently "/names/" "GET"), [⟨sampleOID, "Ann"⟩]) := by
  have h := C9_missing_id_not_found "GET" "" ⟨[⟨sampleOID, "Ann"⟩], zeroOID⟩ (by decide)
  exact ⟨h.1, (h.2 (by decide)).1⟩

/-- C10: body decoding is lenient: the response depends only on the first
JSON value of the body (anything after it is never read, so trailing
content cannot cause a 400), and both struct decoders skip unknown object
fields instead of rejecting them. -/
theorem C10_lenient_decoding (db : DB) :
    (∀ b1 b2 p j r1 r2, parseJson b1 = some (j, r1) → parseJson b2 = some (j, r2) →
      app ⟨"POST", "/names", b1⟩ db = app ⟨"POST", "/names", b2⟩ db
      ∧ app ⟨"PUT", p, b1⟩ db = app ⟨"PUT", p, b2⟩ db)
    ∧ (∀ f1 f2 k v acc, lowerStr k ≠ "name" → lowerStr k ≠ "id" →
      unmarshalNameFields (f1 ++ (k, v) :: f2) acc = unmarshalNameFields (f1 ++ f2) acc)
    ∧ (∀ f1 f2 k v acc, lowerStr k ≠ "name" →
      unmarshalPutFields (f1 ++ (k, v) :: f2) acc = unmarshalPutFields (f1 ++ f2) acc) := by
  refine ⟨?_, ?_, ?_⟩
  · intro b1 b2 p j r1 r2 hb1 hb2
    have hname : decodeNameBody b1 = decodeNameBody b2 := by
      unfold decodeNameBody
      rw [hb1, hb2]
    have hput : decodePutBody b1 = decodePutBody b2 := by
      unfold decodePutBody
      rw [hb1, hb2]
    exact ⟨app_bodyCongr _ _ _ _ db hname hput, app_bodyCongr _ _ _ _ db hname hput⟩
  · intro f1 f2 k v acc hk1 hk2
    induction f1 generalizing acc with
    | nil =>
      simp only [List.nil_append, unmarshalNameFields, setFromField_unknown _ _ _ hk1 hk2]
    | cons f fs ih =>
      obtain ⟨fk, fv⟩ := f
      simp only [List.cons_append, unmarshalNameFields]
      cases setFromField acc fk fv with
      | none => rfl
      | some acc2 => exact ih acc2
  · intro f1 f2 k v acc hk
    induction f1 generalizing acc with
    | nil =>
      simp only [List.nil_append, unmarshalPutFields, setPutField_unknown _ _ _ hk]
    | cons f fs ih =>
      obtain ⟨fk, fv⟩ := f
      simp only [List.cons_append, unmarshalPutFields]
      cases setPutField acc fk fv with
      | none => rfl
      | some acc2 => exact ih acc2

theorem C10_lenient_decoding_witness :
    app ⟨"POST", "/names", "\x7b\"x\":1,\"name\":\"Bo\"\x7d trailing"⟩ ⟨[], sampleOID⟩
      = app ⟨"POST", "/names", "\x7b\"x\":1,\"name\":\"Bo\"\x7d"⟩ ⟨[], sampleOID⟩
    ∧ (app ⟨"POST", "/names", "\x7b\"x\":1,\"name\":\"Bo\"\x7d trailing"⟩ ⟨[], sampleOID⟩).1.status
      = 201 := by
  refine ⟨((C10_lenient_decoding ⟨[], sampleOID⟩).1
    "\x7b\"x\":1,\"name\":\"Bo\"\x7d trailing" "\x7b\"x\":1,\"name\":\"Bo\"\x7d"
    "/names/x" (.obj [("x", .num 1), ("name", .str "Bo")])
    " trailing".data [] rfl rfl).1, rfl⟩

end LearnGoApi
